import Mathlib

/-!
Verification of the Reaper setlist project generator core
(`modules/project_processor.py`).  Project texts are modelled as `List Char`
(one entry per code point, as in a Python `str`); table rows are structures of
`String` fields mirroring the pandas dataframe columns.  The `uuid4` values
attached to fabricated markers are nondeterministic in the source and are
modelled by a fixed placeholder string; no claim depends on them.
-/

namespace ReaperProj

/-- The marker keyword as a character list. -/
def msChars : List Char := ['M', 'A', 'R', 'K', 'E', 'R']

/-- Opening curly brace character (written via its code point). -/
def lbrace : Char := Char.ofNat 123

/-- Closing curly brace character (written via its code point). -/
def rbrace : Char := Char.ofNat 125

/-- Split a character list at every newline, as Python `str.split` with a
newline separator does: `n` separators yield `n + 1` pieces. -/
def splitNl : List Char → List (List Char)
  | [] => [[]]
  | c :: rest =>
    if c = '\n' then [] :: splitNl rest
    else List.modifyHead (fun p => c :: p) (splitNl rest)

/-- Join pieces back, re-inserting the newline separator. -/
def joinNl : List (List Char) → List Char
  | [] => []
  | [p] => p
  | p :: rest => p ++ '\n' :: joinNl rest

/-- Index of the first occurrence of the nonempty pattern `pat` as a
contiguous substring, as Python `str.find` computes it (absence is reported
as `none` rather than `-1`). -/
def findSubIdx (pat : List Char) : List Char → Option Nat
  | [] => none
  | c :: rest =>
    if pat.isPrefixOf (c :: rest) then some 0
    else (findSubIdx pat rest).map (· + 1)

/-- The field splitter of `load_project` (line 74): `re.split` on a space
followed by a lookahead demanding an even number of double quotes up to the
end of the line, i.e. a space splits exactly when the number of quote
characters to its right is even. -/
def splitQA : List Char → List (List Char)
  | [] => [[]]
  | c :: rest =>
    if c = ' ' ∧ rest.count '"' % 2 = 0 then [] :: splitQA rest
    else List.modifyHead (fun p => c :: p) (splitQA rest)

/-- A forward quote-parity scanner: walk the line tracking whether the scan
position lies inside a double-quoted span, and split at delimiter characters
occurring outside such spans.  This is the formulation the specification
uses to describe the field splitter. -/
def scanSplit (isDelim : Char → Bool) : Bool → List Char → List (List Char)
  | _, [] => [[]]
  | inQ, c :: rest =>
    if c = '"' then List.modifyHead (fun p => c :: p) (scanSplit isDelim (!inQ) rest)
    else if isDelim c ∧ inQ = false then [] :: scanSplit isDelim inQ rest
    else List.modifyHead (fun p => c :: p) (scanSplit isDelim inQ rest)

/-- Python whitespace characters, for the claim's reading of the splitter. -/
def isPyWs (c : Char) : Bool :=
  c == ' ' || c == '\t' || c == '\n' || c == '\r' || c == '\x0b' || c == '\x0c'

/-- Helper for `dedupFirst`, carrying the set of names already emitted. -/
def dedupFirstAux (seen : List String) : List String → List String
  | [] => []
  | x :: rest =>
    if x ∈ seen then dedupFirstAux seen rest
    else x :: dedupFirstAux (x :: seen) rest

/-- `pandas.unique`: the distinct values in order of first appearance. -/
def dedupFirst (l : List String) : List String := dedupFirstAux [] l

/-- One raw parsed marker line: the ten space-split fields, before any
cleaning (quote and brace stripping) and before the derived end column. -/
structure RawRow where
  tag : String
  number : String
  start_position : String
  name : String
  is_region : String
  color : String
  unkown_0 : String
  unknown_1 : String
  uuid : String
  unkown_3 : String
  deriving DecidableEq

/-- A live table row after `load_project`: cleaned fields with the derived
end position; the unknown constant columns are dropped (line 96) and are
re-synthesized from fixed literals on export. -/
structure Row where
  tag : String
  number : String
  start_position : String
  name : String
  is_region : String
  color : String
  uuid : String
  end_position : Option String
  deriving DecidableEq

/-- Python `str.replace(c, '')`: remove every occurrence of one character. -/
def stripAllChar (c : Char) (s : String) : String :=
  String.mk (s.data.filter (fun d => d != c))

/-- Line 73: `re.findall` of the marker keyword followed by the rest of the
line.  Each line containing the keyword contributes its suffix from the first
occurrence (the match consumes the rest of the line, so there is at most one
match per line). -/
def extractMarkerLines (text : List Char) : List (List Char) :=
  (splitNl text).filterMap (fun ln => (findSubIdx msChars ln).map (fun p => ln.drop p))

/-- Line 77: build the ten-column dataframe row; pandas raises a ValueError
when the split fields cannot fill the ten column labels, modelled as a parse
failure. -/
def rawOfFields : List String → Option RawRow
  | [t, n, s, nm, ir, c, u0, u1, uu, u3] => some ⟨t, n, s, nm, ir, c, u0, u1, uu, u3⟩
  | _ => none

/-- Lines 80-96: strip quotes from the name and braces from the uuid, derive
the end position of each row as the next raw row's start position (pandas
`shift(-1)`, so the last row gets none), erase it again on point-marker rows
(`is_region == '0'`), and drop the unknown constant columns. -/
def deriveEnds : List RawRow → List Row
  | [] => []
  | r :: rest =>
    { tag := r.tag
      number := r.number
      start_position := r.start_position
      name := stripAllChar '"' r.name
      is_region := r.is_region
      color := r.color
      uuid := stripAllChar rbrace (stripAllChar lbrace r.uuid)
      end_position :=
        if r.is_region = "0" then none
        else (rest.head?).map (fun nxt => nxt.start_position) } :: deriveEnds rest

/-- Lines 73-77: marker-line extraction and field splitting into raw rows. -/
def parseRawRows (text : List Char) : Option (List RawRow) :=
  ((extractMarkerLines text).map (fun ln => (splitQA ln).map (fun f => String.mk f))).mapM
    rawOfFields

/-- Lines 73-98 of `load_project`: the dataframe stored into
`self.project_df` before marker removal: parse, clean, derive end positions,
then drop rows whose stripped name is empty (line 93). -/
def parseProjectDf (text : List Char) : Option (List Row) :=
  (parseRawRows text).map (fun raws => (deriveEnds raws).filter (fun r => r.name != ""))

/-- Lines 195-201 `remove_all_markers_from_project` on the dataframe: keep
rows whose region flag differs from the string zero; an empty table is
returned unchanged. -/
def removeAllMarkersDf (df : List Row) : List Row :=
  if df.isEmpty then df else df.filter (fun r => r.is_region != "0")

/-- Lexicographic comparison of character lists by code point, the order
Python uses to compare strings. -/
def lexLe : List Char → List Char → Bool
  | [], _ => true
  | _ :: _, [] => false
  | a :: as, b :: bs =>
    if a.toNat < b.toNat then true
    else if b.toNat < a.toNat then false
    else lexLe as bs

/-- The Python string order as a binary relation on `String`. -/
def strLe (a b : String) : Prop := lexLe a.data b.data = true

instance : DecidableRel strLe := fun a b => by unfold strLe; infer_instance

theorem lexLe_cons_iff (a b : Char) (as bs : List Char) :
    lexLe (a :: as) (b :: bs) = true ↔
      a.toNat < b.toNat ∨ (a.toNat = b.toNat ∧ lexLe as bs = true) := by
  by_cases h1 : a.toNat < b.toNat
  · simp [lexLe, h1]
  · by_cases h2 : b.toNat < a.toNat
    · simp only [lexLe, if_neg h1, if_pos h2]
      constructor
      · intro h
        exact absurd h (by simp)
      · rintro (h | ⟨h, _⟩) <;> omega
    · have heq : a.toNat = b.toNat := by omega
      simp [lexLe, h1, h2, heq]

theorem lexLe_total : ∀ x y : List Char, lexLe x y = true ∨ lexLe y x = true
  | [], _ => Or.inl rfl
  | _ :: _, [] => Or.inr rfl
  | a :: as, b :: bs => by
    rw [lexLe_cons_iff, lexLe_cons_iff]
    rcases lexLe_total as bs with h | h
    · by_cases hab : a.toNat < b.toNat
      · exact Or.inl (Or.inl hab)
      · by_cases hba : b.toNat < a.toNat
        · exact Or.inr (Or.inl hba)
        · exact Or.inl (Or.inr ⟨by omega, h⟩)
    · by_cases hba : b.toNat < a.toNat
      · exact Or.inr (Or.inl hba)
      · by_cases hab : a.toNat < b.toNat
        · exact Or.inl (Or.inl hab)
        · exact Or.inr (Or.inr ⟨by omega, h⟩)

theorem lexLe_trans : ∀ x y z : List Char,
    lexLe x y = true → lexLe y z = true → lexLe x z = true
  | [], _, _, _, _ => rfl
  | a :: as, [], _, hxy, _ => by simp [lexLe] at hxy
  | _ :: _, _ :: _, [], _, hyz => by simp [lexLe] at hyz
  | a :: as, b :: bs, c :: cs, hxy, hyz => by
    rw [lexLe_cons_iff] at hxy hyz ⊢
    rcases hxy with h | ⟨he1, hr1⟩
    · rcases hyz with h2 | ⟨he2, _⟩
      · exact Or.inl (by omega)
      · exact Or.inl (by omega)
    · rcases hyz with h2 | ⟨he2, hr2⟩
      · exact Or.inl (by omega)
      · exact Or.inr ⟨by omega, lexLe_trans as bs cs hr1 hr2⟩

instance : IsTotal String strLe := ⟨fun a b => lexLe_total a.data b.data⟩

instance : IsTrans String strLe := ⟨fun a b c => lexLe_trans a.data b.data c.data⟩

/-- Lines 126-132 of `extract_available_songs_in_project`: restrict to region
rows, drop the color-zero sentinel rows, take the distinct names in order of
first appearance (`pandas.unique`) and sort them (Python `list.sort`,
lexicographic on code points). -/
def extractSongList (df : List Row) : List String :=
  List.insertionSort strLe
    (dedupFirst (((df.filter (fun r => r.is_region == "1")).filter
      (fun r => r.color != "0")).map (fun r => r.name)))

/-- The validation loop of `set_setlist` (lines 176-179): return the stored
setlist unchanged (`cur`) at the first entry missing from the song list, and
the requested list itself once the loop completes. -/
def setlistLoop (songList cur req : List String) : List String → List String
  | [] => req
  | s :: rest => if s ∈ songList then setlistLoop songList cur req rest else cur

/-- Lines 161-181 `set_setlist`: the new value of `current_setlist` given the
song list and the previously stored setlist. -/
def set_setlist (songList cur req : List String) : List String :=
  setlistLoop songList cur req req

/-- The fixed 30-entry action-id lookup table of `create_markers_from_setlist`
(lines 225-256), indexed 1 to 30; a missing key raises in Python. -/
def marker_map : Nat → Option Nat
  | 1 => some 40161
  | 2 => some 40162
  | 3 => some 40163
  | 4 => some 40164
  | 5 => some 40165
  | 6 => some 40166
  | 7 => some 40167
  | 8 => some 40168
  | 9 => some 40169
  | 10 => some 40160
  | 11 => some 41251
  | 12 => some 41252
  | 13 => some 41253
  | 14 => some 41254
  | 15 => some 41255
  | 16 => some 41256
  | 17 => some 41257
  | 18 => some 41258
  | 19 => some 41259
  | 20 => some 41260
  | 21 => some 41261
  | 22 => some 41262
  | 23 => some 41263
  | 24 => some 41264
  | 25 => some 41265
  | 26 => some 41266
  | 27 => some 41267
  | 28 => some 41268
  | 29 => some 41269
  | 30 => some 41270
  | _ => none

/-- Value of a digit string, most significant digit first. -/
def digitsVal (l : List Char) : Nat := l.foldl (fun acc c => 10 * acc + (c.toNat - 48)) 0

/-- An exact decimal value `num / 10 ^ scale`, the result of numerically
coercing a plain decimal literal.  Kept unnormalized so that all arithmetic
stays in `Int` and `Nat`. -/
structure DecVal where
  num : Int
  scale : Nat
  deriving DecidableEq

/-- Python `float()` of a plain decimal literal (optional sign, integer part,
optional fractional part), modelled exactly; project position strings are
plain decimals with few digits, where the coercion is exact, so exponent and
special-value syntax is out of scope and malformed strings are failures. -/
def parseDec (s : String) : Option DecVal :=
  let l := s.data
  let sgn : Int := if l.head? = some '-' then -1 else 1
  let l1 := if l.head? = some '-' ∨ l.head? = some '+' then l.drop 1 else l
  let ip := l1.takeWhile Char.isDigit
  match l1.dropWhile Char.isDigit with
  | [] => if ip.isEmpty then none else some ⟨sgn * digitsVal ip, 0⟩
  | '.' :: fr =>
    if fr.all Char.isDigit ∧ ¬(ip.isEmpty ∧ fr.isEmpty) then
      some ⟨sgn * (digitsVal ip * 10 ^ fr.length + digitsVal fr), fr.length⟩
    else none
  | _ => none

/-- Python `int()` on an exact decimal value: truncation toward zero, i.e.
the sign times the floor of the absolute numerator over the scale. -/
def pyTruncDec (d : DecVal) : Int :=
  if d.num < 0 then -(((-d.num).toNat / 10 ^ d.scale : Nat) : Int)
  else ((d.num.toNat / 10 ^ d.scale : Nat) : Int)

/-- Exact subtraction of one from a decimal value. -/
def decSubOne (d : DecVal) : DecVal := ⟨d.num - 10 ^ d.scale, d.scale⟩

/-- A fabricated point-marker row (lines 280-292 field values; the random
uuid is modelled by a fixed placeholder, claims do not depend on it). -/
def mkMarkerRow (number start nm : String) : Row :=
  { tag := "MARKER", number := number, start_position := start, name := nm,
    is_region := "0", color := "0", uuid := "UUID", end_position := none }

/-- Lines 262-274: the leading sentinel marker row. -/
def sentinelRow : Row := mkMarkerRow "99" "1" "!40161"

/-- Lines 298-326: the skip marker's action-id name, from the lookup table at
index `i + 2` for all but the last entry and from the `1016 + i` formula for
the last entry of a setlist of length `n`. -/
def skipName (n i : Nat) : Option String :=
  if i < n - 1 then (marker_map (i + 2)).map (fun a => "!" ++ toString a)
  else some ("!" ++ toString (1016 + i))

/-- Lines 277-326, the per-song loop of `create_markers_from_setlist`: the
entry at ordinal `i` contributes the jump marker (at the start position of
the first table row whose name matches the song, numbered `i+1`, named by the
song) followed by the skip marker (numbered `n+i+1`, positioned at the
truncation of the region's end position minus one).  A song absent from the
table, an absent end position, an unparsable position or a missing lookup
index raise in the source and are modelled as failure. -/
def buildMarkers (df : List Row) (n : Nat) : Nat → List String → Option (List Row)
  | _, [] => some []
  | i, song :: rest =>
    match df.find? (fun x => x.name == song) with
    | none => none
    | some r =>
      match r.end_position with
      | none => none
      | some e =>
        match parseDec e with
        | none => none
        | some d =>
          match skipName n i with
          | none => none
          | some nm =>
            match buildMarkers df n (i + 1) rest with
            | none => none
            | some tail =>
              some (mkMarkerRow (toString (i + 1)) r.start_position song ::
                mkMarkerRow (toString (n + i + 1))
                  (toString (pyTruncDec (decSubOne d))) nm :: tail)

/-- Lines 262-326: the fabricated marker block (`new_markers_df`): the
sentinel row followed by the per-song jump and skip pairs. -/
def fabricateMarkers (df : List Row) (setlist : List String) : Option (List Row) :=
  (buildMarkers df setlist.length 0 setlist).map (fun ms => sentinelRow :: ms)

/-- Row comparison used by line 330 `sort_values(by='start_position')`: the
column has object dtype, so pandas compares the position strings as strings. -/
def rowLe (a b : Nat × Row) : Prop := strLe a.2.start_position b.2.start_position

instance : DecidableRel rowLe := fun a b => by unfold rowLe strLe; infer_instance

/-- Line 330: the sort of the combined table, modelled as a stable insertion
sort; pandas' default quicksort gives no tie order guarantee, and the facts
proved below are evaluated at inputs where the order of equal keys does not
affect the stated property. -/
def sortExport (rows : List (Nat × Row)) : List (Nat × Row) :=
  List.insertionSort rowLe rows

/-- Lines 329-332 of `create_markers_from_setlist`: concatenate the region
table with the fabricated block (`ignore_index=True` labels the rows
`0..n-1` in concatenation order) and sort by start position; the produced
`df_to_export` keeps the permuted labels, which the later label-based `loc`
step consults. -/
def createMarkersFromSetlist (df : List Row) (setlist : List String) :
    Option (List (Nat × Row)) :=
  (fabricateMarkers df setlist).map (fun ms => sortExport (df ++ ms).enum)

/-- Quote-on-demand of lines 362-363: the name is wrapped in double quotes
exactly when it contains a space. -/
def quoteName (n : String) : String :=
  if n.data.contains ' ' then "\"" ++ n ++ "\"" else n

/-- Lines 360-370: serialize one export row in the fixed feature order: each
field is followed by one space except the final constant column, the row ends
with a newline, and a region row additionally emits its closing boundary line
with its number, its end position (empty when undefined, after `fillna`) and
an empty quoted name. -/
def serializeRow (r : Row) : String :=
  r.tag ++ " " ++ r.number ++ " " ++ r.start_position ++ " " ++ quoteName r.name ++ " " ++
    r.is_region ++ " " ++ r.color ++ " " ++ "1" ++ " " ++ "R" ++ " " ++ r.uuid ++ " " ++
    "0" ++ "\n" ++
    (if r.is_region == "1" then
      "  MARKER " ++ r.number ++ " " ++ r.end_position.getD "" ++ " \"\" 1\n"
    else "")

/-- Lines 355-358: the constants loop writes the unindented tag on every row,
then `new_df.loc[1:, 'tag'] = '  MARKER'` re-writes it label-based: the index
is the permutation of `0..n-1` left by the sort, so the slice starts at the
position of the label `1` and runs to the end of the table.  When the label
`1` is absent the table has at most one row (labels are an initial segment),
the index is monotonic and the slice selects nothing. -/
def setTagsLoc (rows : List (Nat × Row)) : List (Nat × Row) :=
  match rows.findIdx? (fun p => p.1 == 1) with
  | some k =>
    rows.mapIdx (fun i p =>
      (p.1, { p.2 with tag := if i < k then "MARKER" else "  MARKER" }))
  | none => rows.map (fun p => (p.1, { p.2 with tag := "MARKER" }))

/-- Lines 351-370: the serialized marker block `output_text`. -/
def serializeExport (rows : List (Nat × Row)) : String :=
  String.join ((setTagsLoc rows).map (fun p => serializeRow p.2))

/-- A match of the regex removing marker lines (line 376): the keyword starts
here and the rest of the line is newline-terminated. -/
def markerMatch (l : List Char) : Bool :=
  msChars.isPrefixOf l && (l.drop 6).contains '\n'

/-- The continuation point after a regex match: past the newline that ends
the matched line. -/
def afterMatch (l : List Char) : List Char :=
  ((l.drop 6).dropWhile (fun c => c != '\n')).drop 1

/-- Fuel-driven scanner for `re.sub(r'MARKER.*\n', '', text)` (line 376):
where a match starts, everything from the keyword through the terminating
newline is removed and scanning resumes after it; otherwise one character is
kept.  Every step consumes at least one character, so fuel equal to the
length suffices. -/
def reSubF : Nat → List Char → List Char
  | 0, l => l
  | _ + 1, [] => []
  | f + 1, c :: rest =>
    if markerMatch (c :: rest) then reSubF f (afterMatch (c :: rest))
    else c :: reSubF f rest

/-- Line 376: `re.sub(r'MARKER.*\n', '', text)`. -/
def reSubMarker (l : List Char) : List Char := reSubF l.length l

/-- Python `str.lstrip()`: drop leading whitespace characters. -/
def pyLstrip (l : List Char) : List Char := l.dropWhile isPyWs

/-- The anchor section keyword of line 381. -/
def projChars : List Char := "<PROJBAY".data

/-- Lines 381-385: strip the leading indentation of every line of the text
before the first `<PROJBAY` anchor; Python `find` returning `-1` for a
missing anchor makes the slices select all but the last character, mirrored
in the fallback branch. -/
def projbayNormalize (t : List Char) : List Char :=
  match findSubIdx projChars t with
  | some q => joinNl ((splitNl (t.take q)).map pyLstrip) ++ t.drop q
  | none =>
    joinNl ((splitNl (t.take (t.length - 1))).map pyLstrip) ++ t.drop (t.length - 1)

/-- Lines 372-385 of `create_new_rpp_file`, parameterized by the serialized
block: locate the first keyword occurrence in the original text, delete every
keyword-to-end-of-line span, insert the block at the saved offset within the
cleaned text, then normalize indentation before the `<PROJBAY` anchor
(`find` returning `-1` for a missing keyword makes Python insert before the
last character, mirrored in the fallback branch). -/
def spliceRpp (rpp block : List Char) : List Char :=
  let cleaned := reSubMarker rpp
  let inserted :=
    match findSubIdx msChars rpp with
    | some p => cleaned.take p ++ block ++ cleaned.drop p
    | none => cleaned.take (cleaned.length - 1) ++ block ++ cleaned.drop (cleaned.length - 1)
  projbayNormalize inserted

/-- The serialization-and-splice of `create_new_rpp_file` on the stored
original text (the returned file name carries the wall-clock date and is not
modelled). -/
def create_new_rpp_file (rpp : List Char) (rows : List (Nat × Row)) : List Char :=
  spliceRpp rpp (serializeExport rows).data

/-- The processor state (`__init__`, lines 35-49); the derived export frame
and output text are recomputed by their producers and not stored here. -/
structure PState where
  project_df : List Row
  song_list : List String
  current_setlist : List String
  rpp_file : List Char
  deriving DecidableEq

/-- The freshly constructed processor. -/
def initState : PState :=
  { project_df := [], song_list := [], current_setlist := [], rpp_file := [] }

/-- Python exception values, for methods modelled with an explicit error
channel. -/
inductive PyErr
  | valueError
  | typeError
  deriving DecidableEq

/-- Lines 105-133 `extract_available_songs_in_project` at the state level: an
empty table only logs an error message and returns; otherwise the song list
is recomputed from the table.  The method never raises and mutates nothing
but `song_list`, which the explicit error channel makes visible. -/
def extract_available_songs_in_project (s : PState) : Except PyErr PState :=
  if s.project_df.isEmpty then Except.ok s
  else Except.ok { s with song_list := extractSongList s.project_df }

/-- The end-to-end caller path: `load_project` (parse, drop markers, extract
songs), `set_setlist` against the extracted list, then
`create_markers_from_setlist`; yields the export table. -/
def runPipelineExport (text : List Char) (req : List String) :
    Option (List (Nat × Row)) := do
  let df0 ← parseProjectDf text
  let df := removeAllMarkersDf df0
  let sl := set_setlist (extractSongList df) [] req
  createMarkersFromSetlist df sl

/-- The pipeline continued through the serialization of
`create_new_rpp_file`. -/
def runPipelineText (text : List Char) (req : List String) : Option (List Char) :=
  (runPipelineExport text req).map (fun rows => (serializeExport rows).data)

/-! Theorems.  Helper lemmas come first, then one theorem per claim with its
witness or counterexample. -/

theorem setlistLoop_valid (songList cur req : List String) :
    ∀ l : List String, (∀ s ∈ l, s ∈ songList) → setlistLoop songList cur req l = req
  | [], _ => rfl
  | s :: rest, h => by
    have hs : s ∈ songList := h s (List.mem_cons_self s rest)
    simp only [setlistLoop, if_pos hs]
    exact setlistLoop_valid songList cur req rest (fun x hx => h x (List.mem_cons_of_mem s hx))

theorem setlistLoop_invalid (songList cur req : List String) :
    ∀ l : List String, (∃ s ∈ l, s ∉ songList) → setlistLoop songList cur req l = cur
  | [], h => absurd h (by simp)
  | s :: rest, h => by
    by_cases hs : s ∈ songList
    · simp only [setlistLoop, if_pos hs]
      rcases h with ⟨x, hx, hxn⟩
      rcases List.mem_cons.1 hx with rfl | hx
      · exact absurd hs hxn
      · exact setlistLoop_invalid songList cur req rest ⟨x, hx, hxn⟩
    · simp only [setlistLoop, if_neg hs]

/-- Claim C5: setlist assignment is atomic: if any requested name is missing
from the song list the stored setlist is left unchanged, and if every name is
a member the requested list is stored verbatim (duplicates allowed, since
only membership is checked). -/
theorem set_setlist_atomic (songList cur req : List String) :
    ((∀ s ∈ req, s ∈ songList) → set_setlist songList cur req = req) ∧
    ((∃ s ∈ req, s ∉ songList) → set_setlist songList cur req = cur) :=
  ⟨fun h => setlistLoop_valid songList cur req req h,
   fun h => setlistLoop_invalid songList cur req req h⟩

/-- Witness for C5: the spec's own example (song list A,B; request A,C is
rejected keeping the old setlist) and a duplicate-carrying valid request
stored verbatim. -/
theorem set_setlist_atomic_witness :
    set_setlist ["A", "B"] ["A"] ["A", "C"] = ["A"] ∧
    set_setlist ["A", "B"] ["A"] ["A", "A", "B"] = ["A", "A", "B"] :=
  ⟨(set_setlist_atomic ["A", "B"] ["A"] ["A", "C"]).2 ⟨"C", by decide, by decide⟩,
   (set_setlist_atomic ["A", "B"] ["A"] ["A", "A", "B"]).1 (by decide)⟩

/-- Counterexample for C9: song-list extraction invoked on the freshly
constructed processor returns normally with the state unchanged (the error is
only logged); no structured `EmptyProjectError` value reaches the caller, and
no `MalformedLineError` exists anywhere in the source. -/
theorem extract_songs_ok_on_init :
    extract_available_songs_in_project initState = Except.ok initState := rfl

/-- Claim C9 (amended): invoking song-list extraction before any project has
been loaded returns normally with the processor state unchanged: the error is
only logged, no structured error value is surfaced to the caller, and the
in-memory table is untouched. -/
theorem extract_songs_empty_noop (s : PState) (h : s.project_df = []) :
    extract_available_songs_in_project s = Except.ok s := by
  simp [extract_available_songs_in_project, h]

/-- Witness for the amended C9 at a state carrying a previous song list and
setlist, both left untouched. -/
theorem extract_songs_empty_noop_witness :
    extract_available_songs_in_project
        { project_df := [], song_list := ["X"], current_setlist := ["X"],
          rpp_file := "t".data } =
      Except.ok
        { project_df := [], song_list := ["X"], current_setlist := ["X"],
          rpp_file := "t".data } :=
  extract_songs_empty_noop _ rfl

/-- Claim C2 (refuted, code bug): at a project whose regions start at
positions 9 and 10, the synthesized export table is ordered "1", "10", "9",
"9", "9": `sort_values` on the object-dtype `start_position` column compares
the decimal strings lexically, so the row at numeric position 10 precedes
the rows at numeric position 9, while the spec demands numeric order. -/
theorem create_markers_sorts_lexically :
    (runPipelineExport
        "  MARKER 1 9 A 1 1 1 R X 0\n  MARKER 1 10 B 1 1 1 R Y 0\n<PROJBAY\n".data
        ["A"]).map (fun rows => rows.map (fun p => p.2.start_position)) =
      some ["1", "10", "9", "9", "9"] := by decide

/-- Claim C10 (refuted, code bug): for a two-region project with setlist B,
the serialized block has seven marker lines of which *four* carry the
unindented tag (and three the two-space tag), not exactly the first one:
`new_df.loc[1:, 'tag']` slices from the position of the *label* 1, i.e. of
the second pre-sort row, which the sort moved to the end of the table. -/
theorem serialized_block_indentation_bug :
    (runPipelineText
        "  MARKER 1 5 B 1 1 1 R X 0\n  MARKER 1 9 C 1 1 1 R Y 0\n<PROJBAY\n".data
        ["B"]).map (fun out =>
          ((splitNl out).countP (fun l => msChars.isPrefixOf l),
           (splitNl out).countP (fun l => ("  MARKER".data).isPrefixOf l))) =
      some (4, 3) := by decide

theorem mem_dedupFirstAux : ∀ (l seen : List String) (a : String),
    a ∈ dedupFirstAux seen l ↔ a ∈ l ∧ a ∉ seen
  | [], seen, a => by simp [dedupFirstAux]
  | x :: rest, seen, a => by
    by_cases hx : x ∈ seen
    · rw [dedupFirstAux, if_pos hx, mem_dedupFirstAux rest seen a]
      constructor
      · rintro ⟨h1, h2⟩
        exact ⟨List.mem_cons_of_mem x h1, h2⟩
      · rintro ⟨h1, h2⟩
        rcases List.mem_cons.1 h1 with rfl | h1
        · exact absurd hx h2
        · exact ⟨h1, h2⟩
    · rw [dedupFirstAux, if_neg hx]
      constructor
      · intro hmem
        rcases List.mem_cons.1 hmem with rfl | hmem
        · exact ⟨List.mem_cons_self _ _, hx⟩
        · obtain ⟨h1, h2⟩ := (mem_dedupFirstAux rest (x :: seen) a).1 hmem
          exact ⟨List.mem_cons_of_mem x h1, fun hs => h2 (List.mem_cons_of_mem x hs)⟩
      · rintro ⟨h1, h2⟩
        by_cases hax : a = x
        · exact hax ▸ List.mem_cons_self x _
        · rcases List.mem_cons.1 h1 with rfl | h1
          · exact absurd rfl hax
          · refine List.mem_cons_of_mem x ((mem_dedupFirstAux rest (x :: seen) a).2
              ⟨h1, fun hs => ?_⟩)
            rcases List.mem_cons.1 hs with rfl | hs
            · exact hax rfl
            · exact h2 hs

theorem nodup_dedupFirstAux : ∀ (l seen : List String), (dedupFirstAux seen l).Nodup
  | [], _ => List.nodup_nil
  | x :: rest, seen => by
    by_cases hx : x ∈ seen
    · rw [dedupFirstAux, if_pos hx]
      exact nodup_dedupFirstAux rest seen
    · rw [dedupFirstAux, if_neg hx]
      refine List.Nodup.cons (fun hmem => ?_) (nodup_dedupFirstAux rest (x :: seen))
      exact ((mem_dedupFirstAux rest (x :: seen) x).1 hmem).2 (List.mem_cons_self x seen)

/-- ASCII lowercasing, the case folding relevant to the claim's reading of
the song list. -/
def lowerChar (c : Char) : Char :=
  if 'A' ≤ c ∧ c ≤ 'Z' then Char.ofNat (c.toNat + 32) else c

/-- Lowercase an entire string. -/
def lowerStr (s : String) : String := String.mk (s.data.map lowerChar)

/-- Counterexample for C6: two regions named "A" and "a" (distinct strings
that agree case-insensitively) both survive extraction, so the song list is
not deduplicated case-insensitively as the claim states. -/
theorem extract_songs_case_sensitive :
    extractSongList
        [⟨"MARKER", "1", "0", "A", "1", "5", "X", some "9"⟩,
         ⟨"MARKER", "2", "9", "a", "1", "5", "Y", none⟩] = ["A", "a"] ∧
    lowerStr "A" = lowerStr "a" ∧ "A" ≠ "a" := by decide

/-- Claim C6 (amended): the extracted song list is duplicate-free as exact
strings (names differing only by case stay distinct entries), sorted
ascending in code-point lexicographic order, and contains a name exactly when
some region row (region flag "1") whose color is not the sentinel "0"
carries it. -/
theorem extract_songs_spec (df : List Row) :
    (extractSongList df).Nodup ∧
    List.Sorted strLe (extractSongList df) ∧
    (∀ a : String, a ∈ extractSongList df ↔
      ∃ r ∈ df, r.is_region = "1" ∧ r.color ≠ "0" ∧ r.name = a) := by
  refine ⟨?_, List.sorted_insertionSort strLe _, ?_⟩
  · exact (List.perm_insertionSort strLe _).nodup_iff.2 (nodup_dedupFirstAux _ _)
  · intro a
    rw [extractSongList, List.mem_insertionSort, dedupFirst, mem_dedupFirstAux]
    simp only [List.mem_map, List.mem_filter, List.not_mem_nil, not_false_iff, and_true,
      beq_iff_eq, bne_iff_ne, ne_eq]
    constructor
    · rintro ⟨r, ⟨⟨hdf, hreg⟩, hcol⟩, rfl⟩
      exact ⟨r, hdf, hreg, hcol, rfl⟩
    · rintro ⟨r, hdf, hreg, hcol, rfl⟩
      exact ⟨r, ⟨⟨hdf, hreg⟩, hcol⟩, rfl⟩

theorem buildMarkers_cons (df : List Row) (n i : Nat) (song : String) (rest : List String)
    (rows : List Row) (h : buildMarkers df n i (song :: rest) = some rows) :
    ∃ r e d nm tail,
      df.find? (fun x => x.name == song) = some r ∧
      r.end_position = some e ∧ parseDec e = some d ∧ skipName n i = some nm ∧
      buildMarkers df n (i + 1) rest = some tail ∧
      rows = mkMarkerRow (toString (i + 1)) r.start_position song ::
        mkMarkerRow (toString (n + i + 1)) (toString (pyTruncDec (decSubOne d))) nm ::
          tail := by
  cases hfind : df.find? (fun x => x.name == song) with
  | none => simp [buildMarkers, hfind] at h
  | some r =>
    cases he : r.end_position with
    | none => simp [buildMarkers, hfind, he] at h
    | some e =>
      cases hd : parseDec e with
      | none => simp [buildMarkers, hfind, he, hd] at h
      | some d =>
        cases hnm : skipName n i with
        | none => simp [buildMarkers, hfind, he, hd, hnm] at h
        | some nm =>
          cases htail : buildMarkers df n (i + 1) rest with
          | none => simp [buildMarkers, hfind, he, hd, hnm, htail] at h
          | some tail =>
            simp only [buildMarkers, hfind, he, hd, hnm, htail,
              Option.some.injEq] at h
            exact ⟨r, e, d, nm, tail, rfl, he, hd, rfl, rfl, h.symm⟩

theorem buildMarkers_get (df : List Row) (n : Nat) :
    ∀ (sl : List String) (i : Nat) (rows : List Row),
      buildMarkers df n i sl = some rows →
      rows.length = 2 * sl.length ∧
      ∀ j (hj : j < sl.length), ∃ r e d nm,
        df.find? (fun x => x.name == sl.get ⟨j, hj⟩) = some r ∧
        r.end_position = some e ∧ parseDec e = some d ∧ skipName n (i + j) = some nm ∧
        rows.get? (2 * j) = some (mkMarkerRow (toString (i + j + 1)) r.start_position
          (sl.get ⟨j, hj⟩)) ∧
        rows.get? (2 * j + 1) = some (mkMarkerRow (toString (n + (i + j) + 1))
          (toString (pyTruncDec (decSubOne d))) nm)
  | [], i, rows, h => by
    simp only [buildMarkers, Option.some.injEq] at h
    subst h
    exact ⟨rfl, fun j hj => absurd hj (by simp)⟩
  | song :: rest, i, rows, h => by
    obtain ⟨r, e, d, nm, tail, hr, he, hd, hnm, htail, rfl⟩ :=
      buildMarkers_cons df n i song rest rows h
    obtain ⟨hlen, hget⟩ := buildMarkers_get df n rest (i + 1) tail htail
    refine ⟨by simp [hlen]; omega, fun j hj => ?_⟩
    match j with
    | 0 =>
      refine ⟨r, e, d, nm, hr, he, hd, ?_, rfl, rfl⟩
      simpa using hnm
    | k + 1 =>
      have hk : k < rest.length := by simpa using Nat.lt_of_succ_lt_succ hj
      obtain ⟨r', e', d', nm', hr', he', hd', hnm', hg1, hg2⟩ := hget k hk
      have hidx : i + 1 + k = i + (k + 1) := by omega
      have h2j : 2 * (k + 1) = 2 * k + 1 + 1 := by omega
      have h2j1 : 2 * (k + 1) + 1 = (2 * k + 1) + 1 + 1 := by omega
      refine ⟨r', e', d', nm', ?_, he', hd', ?_, ?_, ?_⟩
      · simpa using hr'
      · rw [← hidx]
        exact hnm'
      · rw [h2j, List.get?_cons_succ, List.get?_cons_succ, ← hidx]
        simpa using hg1
      · rw [h2j1, List.get?_cons_succ, List.get?_cons_succ, ← hidx]
        exact hg2

/-- Claim C3: for a non-empty setlist of length n, the fabricated block (when
fabrication succeeds) is the sentinel point marker at start position "1"
named with the fixed action id, followed, for each entry at 0-based ordinal
j, by a jump marker at the song's region start numbered j+1 named by the
song, and a skip marker numbered n+j+1 whose name is the bang-prefixed action
id from the fixed 30-entry lookup table at index j+2 for every entry but the
last, and the formula 1016+j for the last entry. -/
theorem fabricate_markers_structure (df : List Row) (sl : List String) (out : List Row)
    (_hne : sl ≠ []) (h : fabricateMarkers df sl = some out) :
    out.head? = some sentinelRow ∧ sentinelRow.start_position = "1" ∧
    sentinelRow.name = "!40161" ∧ out.length = 2 * sl.length + 1 ∧
    ∀ j (hj : j < sl.length), ∃ r,
      df.find? (fun x => x.name == sl.get ⟨j, hj⟩) = some r ∧
      out.get? (2 * j + 1) =
        some (mkMarkerRow (toString (j + 1)) r.start_position (sl.get ⟨j, hj⟩)) ∧
      ∃ nm st,
        out.get? (2 * j + 2) = some (mkMarkerRow (toString (sl.length + j + 1)) st nm) ∧
        (j < sl.length - 1 → ∃ a, marker_map (j + 2) = some a ∧ nm = "!" ++ toString a) ∧
        (j = sl.length - 1 → nm = "!" ++ toString (1016 + j)) := by
  simp only [fabricateMarkers, Option.map_eq_some'] at h
  obtain ⟨ms, hms, rfl⟩ := h
  obtain ⟨hlen, hget⟩ := buildMarkers_get df sl.length sl 0 ms hms
  refine ⟨rfl, rfl, rfl, by simp [hlen], fun j hj => ?_⟩
  obtain ⟨r, e, d, nm, hr, _he, _hd, hnm, hg1, hg2⟩ := hget j hj
  have hz : (0 : Nat) + j = j := Nat.zero_add j
  rw [hz] at hnm hg1 hg2
  refine ⟨r, hr, ?_, nm, toString (pyTruncDec (decSubOne d)), ?_, ?_, ?_⟩
  · have : (sentinelRow :: ms).get? (2 * j + 1) = ms.get? (2 * j) := List.get?_cons_succ
    rw [this]
    exact hg1
  · have h2 : 2 * j + 2 = (2 * j + 1) + 1 := by omega
    rw [h2, List.get?_cons_succ]
    exact hg2
  · intro hjlt
    rw [skipName, if_pos hjlt, Option.map_eq_some'] at hnm
    obtain ⟨a, ha, hnm⟩ := hnm
    exact ⟨a, ha, hnm.symm⟩
  · intro hjeq
    have hjlt : ¬ j < sl.length - 1 := by omega
    rw [skipName, if_neg hjlt, Option.some.injEq] at hnm
    exact hnm.symm

/-- A region row used by the witnesses below: start 10, end 20. -/
def rowTen : Row := ⟨"MARKER", "1", "10", "A", "1", "1", "X", some "20"⟩

/-- The block fabricated for `[rowTen]` and the one-song setlist A. -/
def fabOut : List Row := [sentinelRow, mkMarkerRow "1" "10" "A", mkMarkerRow "2" "19" "!1016"]

/-- Witness for C3 at the one-song setlist A over the region `rowTen`. -/
theorem fabricate_markers_structure_witness :
    fabOut.head? = some sentinelRow ∧ sentinelRow.start_position = "1" ∧
    sentinelRow.name = "!40161" ∧ fabOut.length = 2 * (["A"] : List String).length + 1 ∧
    ∀ j (hj : j < (["A"] : List String).length), ∃ r,
      [rowTen].find? (fun x => x.name == (["A"] : List String).get ⟨j, hj⟩) = some r ∧
      fabOut.get? (2 * j + 1) =
        some (mkMarkerRow (toString (j + 1)) r.start_position
          ((["A"] : List String).get ⟨j, hj⟩)) ∧
      ∃ nm st,
        fabOut.get? (2 * j + 2) =
          some (mkMarkerRow (toString ((["A"] : List String).length + j + 1)) st nm) ∧
        (j < (["A"] : List String).length - 1 →
          ∃ a, marker_map (j + 2) = some a ∧ nm = "!" ++ toString a) ∧
        (j = (["A"] : List String).length - 1 → nm = "!" ++ toString (1016 + j)) :=
  fabricate_markers_structure [rowTen] ["A"] fabOut (by decide) (by decide)

/-- Claim C4: the skip marker fabricated for the setlist entry at ordinal j,
whose region row carries end position e with exact decimal value d, is
positioned at the decimal rendering of the truncation toward zero of d minus
one. -/
theorem skip_marker_position (df : List Row) (sl : List String) (out : List Row)
    (j : Nat) (hj : j < sl.length) (h : fabricateMarkers df sl = some out)
    (r : Row) (hr : df.find? (fun x => x.name == sl.get ⟨j, hj⟩) = some r)
    (e : String) (he : r.end_position = some e)
    (d : DecVal) (hd : parseDec e = some d) :
    ∃ nm, out.get? (2 * j + 2) =
      some (mkMarkerRow (toString (sl.length + j + 1))
        (toString (pyTruncDec (decSubOne d))) nm) := by
  simp only [fabricateMarkers, Option.map_eq_some'] at h
  obtain ⟨ms, hms, rfl⟩ := h
  obtain ⟨_hlen, hget⟩ := buildMarkers_get df sl.length sl 0 ms hms
  obtain ⟨r', e', d', nm, hr', he', hd', _hnm, _hg1, hg2⟩ := hget j hj
  have hz : (0 : Nat) + j = j := Nat.zero_add j
  rw [hz] at hg2
  rw [hr] at hr'
  obtain rfl := Option.some.injEq _ _ ▸ hr'.symm
  rw [he] at he'
  obtain rfl := Option.some.injEq _ _ ▸ he'.symm
  rw [hd] at hd'
  obtain rfl := Option.some.injEq _ _ ▸ hd'.symm
  refine ⟨nm, ?_⟩
  have h2 : 2 * j + 2 = (2 * j + 1) + 1 := by omega
  rw [h2, List.get?_cons_succ]
  exact hg2

/-- Witness for C4: the spec's example: a region with start 10 and end 20
yields a skip marker at position 19. -/
theorem skip_marker_position_witness :
    toString (pyTruncDec (decSubOne ⟨20, 0⟩)) = "19" ∧
    ∃ nm, fabOut.get? (2 * 0 + 2) =
      some (mkMarkerRow (toString ((["A"] : List String).length + 0 + 1))
        (toString (pyTruncDec (decSubOne ⟨20, 0⟩))) nm) :=
  ⟨by decide, skip_marker_position [rowTen] ["A"] fabOut 0 (by decide) (by decide)
    rowTen (by decide) "20" (by decide) ⟨20, 0⟩ (by decide)⟩

theorem deriveEnds_get (l : List RawRow) : ∀ (i : Nat) (row : Row),
    (deriveEnds l).get? i = some row →
    (row.is_region = "0" → row.end_position = none) ∧
    (row.is_region ≠ "0" →
      row.end_position = (l.get? (i + 1)).map (fun nx => nx.start_position)) := by
  induction l with
  | nil => intro i row h; simp [deriveEnds] at h
  | cons r rest ih =>
    intro i row h
    cases i with
    | zero =>
      simp only [deriveEnds, List.get?_cons_zero, Option.some.injEq] at h
      subst h
      refine ⟨fun h0 => ?_, fun hne => ?_⟩
      · show (if r.is_region = "0" then none
          else Option.map (fun nxt => nxt.start_position) rest.head?) = none
        rw [if_pos h0]
      · show (if r.is_region = "0" then none
          else Option.map (fun nxt => nxt.start_position) rest.head?) =
          Option.map (fun nx => nx.start_position) ((r :: rest).get? (0 + 1))
        rw [if_neg hne, List.get?_cons_succ]
        cases rest <;> simp
    | succ k =>
      simp only [deriveEnds, List.get?_cons_succ] at h
      rw [List.get?_cons_succ]
      exact ih k row h

/-- Claim C8: whenever `load_project` produces a table, the end position of
every derived row (computed before the empty-name filter) equals the start
position of the raw row immediately following it in original file order,
point-marker rows (region flag "0") carry no end position, and the stored
table is exactly the derived rows with the empty-name rows dropped
afterwards. -/
theorem load_end_position_spec (text : List Char) (tbl : List Row)
    (h : parseProjectDf text = some tbl) :
    ∃ raws, parseRawRows text = some raws ∧
      tbl = (deriveEnds raws).filter (fun r => r.name != "") ∧
      ∀ i row, (deriveEnds raws).get? i = some row →
        (row.is_region = "0" → row.end_position = none) ∧
        (row.is_region ≠ "0" →
          row.end_position = (raws.get? (i + 1)).map (fun nx => nx.start_position)) := by
  simp only [parseProjectDf, Option.map_eq_some'] at h
  obtain ⟨raws, hraws, rfl⟩ := h
  exact ⟨raws, hraws, rfl, fun i row hrow => deriveEnds_get raws i row hrow⟩

/-- A project text whose middle region has an empty quoted name. -/
def textEnds : List Char :=
  "  MARKER 1 0 A 1 5 1 R X 0\n  MARKER 2 7 \"\" 1 0 1 R Y 0\n  MARKER 3 9 B 1 5 1 R Z 0\n<PROJBAY\n".data

/-- The table `load_project` stores for `textEnds`. -/
def tblEnds : List Row :=
  [⟨"MARKER", "1", "0", "A", "1", "5", "X", some "7"⟩,
   ⟨"MARKER", "3", "9", "B", "1", "5", "Z", none⟩]

/-- Witness for C8: the surviving first region keeps end position "7", the
start of the dropped empty-name row, showing the derivation happens before
the filtering. -/
theorem load_end_position_spec_witness :
    ∃ raws, parseRawRows textEnds = some raws ∧
      tblEnds = (deriveEnds raws).filter (fun r => r.name != "") ∧
      ∀ i row, (deriveEnds raws).get? i = some row →
        (row.is_region = "0" → row.end_position = none) ∧
        (row.is_region ≠ "0" →
          row.end_position = (raws.get? (i + 1)).map (fun nx => nx.start_position)) :=
  load_end_position_spec textEnds tblEnds (by decide)

theorem scanSplit_eq_splitQA : ∀ (l : List Char) (b : Bool),
    l.count '"' % 2 = (if b then 1 else 0) →
    scanSplit (fun c => c == ' ') b l = splitQA l
  | [], b, h => by
    cases b
    · rfl
    · simp at h
  | c :: rest, b, h => by
    by_cases hq : c = '"'
    · subst hq
      have hcount : ('"' :: rest).count '"' = rest.count '"' + 1 := by
        simp [List.count_cons]
      rw [hcount] at h
      cases b
      · have h1 : ¬rest.count '"' % 2 = 0 := by simp at h; omega
        have heq2 : scanSplit (fun c => c == ' ') true rest = splitQA rest :=
          scanSplit_eq_splitQA rest true (by simp at h ⊢; omega)
        simp [scanSplit, splitQA, heq2, h1]
      · have h1 : rest.count '"' % 2 = 0 := by simp at h; omega
        have heq2 : scanSplit (fun c => c == ' ') false rest = splitQA rest :=
          scanSplit_eq_splitQA rest false (by simp at h ⊢; omega)
        simp [scanSplit, splitQA, heq2, h1]
    · have hcount : (c :: rest).count '"' = rest.count '"' := by
        simp [List.count_cons, hq]
      rw [hcount] at h
      have heq := scanSplit_eq_splitQA rest b h
      by_cases hsp : c = ' '
      · subst hsp
        cases b
        · have h1 : rest.count '"' % 2 = 0 := by simpa using h
          simp [scanSplit, splitQA, heq, h1, hq]
        · have h1 : ¬rest.count '"' % 2 = 0 := by simp at h; omega
          simp [scanSplit, splitQA, heq, h1, hq]
      · have hbeq : (c == ' ') = false := by simpa using hsp
        simp [scanSplit, splitQA, heq, hq, hsp, hbeq]

/-- Claim C7 (amended): for a marker line with an even number of double
quotes (balanced quoting), the field splitter divides the line at exactly
the *space characters* lying outside double-quoted spans: it coincides with
the forward quote-parity scanner that splits at spaces while outside a
span. -/
theorem splitQA_outside_quotes (l : List Char) (h : l.count '"' % 2 = 0) :
    splitQA l = scanSplit (fun c => c == ' ') false l :=
  (scanSplit_eq_splitQA l false h).symm

/-- The claim's example marker line, completed to the ten-field shape. -/
def exLine : List Char := "MARKER 1 10.0 \"Song With Spaces\" 1 16 1 R U 0".data

/-- Witness for the amended C7 at the claim's example line: quotes balance,
the splitter agrees with the outside-quotes scanner, the quoted name is one
field of the ten (the fourth), and the name-cleaning step then strips the
quote characters. -/
theorem splitQA_outside_quotes_witness :
    exLine.count '"' % 2 = 0 ∧
    splitQA exLine = scanSplit (fun c => c == ' ') false exLine ∧
    (splitQA exLine).get? 3 = some "\"Song With Spaces\"".data ∧
    (splitQA exLine).length = 10 ∧
    stripAllChar '"' (String.mk "\"Song With Spaces\"".data) = "Song With Spaces" :=
  ⟨by decide, splitQA_outside_quotes exLine (by decide), by decide, by decide, by decide⟩

/-- Counterexample for C7: the splitter divides at space characters only; a
marker line containing a tab is not divided at the tab, while the claimed
division on whitespace (the same scanner with the whitespace delimiter set)
splits there. -/
theorem splitQA_tab_not_delimiter :
    splitQA "MARKER\t1 2".data = ["MARKER\t1".data, "2".data] ∧
    scanSplit isPyWs false "MARKER\t1 2".data =
      ["MARKER".data, "1".data, "2".data] ∧
    splitQA "MARKER\t1 2".data ≠ scanSplit isPyWs false "MARKER\t1 2".data := by decide

theorem reSubF_nil : ∀ f, reSubF f [] = []
  | 0 => rfl
  | _ + 1 => rfl

theorem afterMatch_length_le (c : Char) (rest : List Char) :
    (afterMatch (c :: rest)).length ≤ rest.length := by
  unfold afterMatch
  have h1 : (((c :: rest).drop 6).dropWhile (fun x => x != '\n')).length ≤
      ((c :: rest).drop 6).length :=
    (List.dropWhile_sublist _).length_le
  have h2 : ((c :: rest).drop 6).length = rest.length + 1 - 6 := by
    simp [List.length_drop]
  have h3 := List.length_drop 1 (((c :: rest).drop 6).dropWhile (fun x => x != '\n'))
  omega

theorem reSubF_fuel : ∀ (n f g : Nat) (l : List Char),
    l.length ≤ f → l.length ≤ g → l.length ≤ n → reSubF f l = reSubF g l := by
  intro n
  induction n with
  | zero =>
    intro f g l _ _ hn
    have : l = [] := List.eq_nil_of_length_eq_zero (by omega)
    subst this
    rw [reSubF_nil, reSubF_nil]
  | succ n ih =>
    intro f g l hf hg hn
    cases l with
    | nil => rw [reSubF_nil, reSubF_nil]
    | cons c rest =>
      simp only [List.length_cons] at hf hg hn
      cases f with
      | zero => omega
      | succ f' =>
        cases g with
        | zero => omega
        | succ g' =>
          simp only [reSubF]
          by_cases hm : markerMatch (c :: rest) = true
          · rw [if_pos hm, if_pos hm]
            have hle := afterMatch_length_le c rest
            exact ih f' g' (afterMatch (c :: rest)) (by omega) (by omega) (by omega)
          · rw [if_neg hm, if_neg hm]
            rw [ih f' g' rest (by omega) (by omega) (by omega)]

theorem reSubMarker_cons_no_match (c : Char) (rest : List Char)
    (h : markerMatch (c :: rest) = false) :
    reSubMarker (c :: rest) = c :: reSubMarker rest := by
  unfold reSubMarker
  simp only [List.length_cons, reSubF]
  rw [if_neg (by simp [h])]

theorem findSubIdx_some_le (pat : List Char) :
    ∀ (l : List Char) (p : Nat), findSubIdx pat l = some p → p ≤ l.length
  | [], p, h => by simp [findSubIdx] at h
  | c :: rest, p, h => by
    by_cases hp : pat.isPrefixOf (c :: rest) = true
    · rw [findSubIdx, if_pos hp] at h
      have : p = 0 := by simpa using h.symm
      simp [this]
    · rw [findSubIdx, if_neg hp, Option.map_eq_some'] at h
      obtain ⟨q, hq, rfl⟩ := h
      have := findSubIdx_some_le pat rest q hq
      simp
      omega

theorem findSubIdx_cons_succ (pat : List Char) (c : Char) (rest : List Char) (p : Nat)
    (h : findSubIdx pat (c :: rest) = some (p + 1)) :
    pat.isPrefixOf (c :: rest) = false ∧ findSubIdx pat rest = some p := by
  by_cases hp : pat.isPrefixOf (c :: rest) = true
  · rw [findSubIdx, if_pos hp] at h
    simp at h
  · rw [findSubIdx, if_neg hp, Option.map_eq_some'] at h
    obtain ⟨q, hq, hq1⟩ := h
    have : q = p := by omega
    subst this
    exact ⟨Bool.eq_false_iff.2 hp, hq⟩

theorem reSub_split : ∀ (p : Nat) (l : List Char),
    findSubIdx msChars l = some p →
    reSubMarker l = l.take p ++ reSubMarker (l.drop p)
  | 0, l, _ => by simp
  | p + 1, l, h => by
    cases l with
    | nil => simp [findSubIdx] at h
    | cons c rest =>
      obtain ⟨hpre, hrest⟩ := findSubIdx_cons_succ msChars c rest p h
      have hnm : markerMatch (c :: rest) = false := by
        simp [markerMatch, hpre]
      rw [reSubMarker_cons_no_match c rest hnm, reSub_split p rest hrest]
      simp [List.take_succ_cons, List.drop_succ_cons]

/-- Claim C1 (amended): when the keyword occurs in the original text at first
offset p, the spliced output of `create_new_rpp_file` is: the original text
up to p kept verbatim (the first marker line's leading indentation
included), then the serialized block, then the keyword-to-end-of-line
cleaned remainder of the original from p on, the whole normalized by
stripping leading whitespace from every line before the `<PROJBAY` anchor
(the inserted block's lines included, when they precede the anchor). -/
theorem splice_at_original_offset (rpp block : List Char) (p : Nat)
    (h : findSubIdx msChars rpp = some p) :
    spliceRpp rpp block =
      projbayNormalize (List.take p rpp ++ block ++ reSubMarker (List.drop p rpp)) := by
  have hsplit := reSub_split p rpp h
  have hple := findSubIdx_some_le msChars rpp p h
  have hlen : (List.take p rpp).length = p := by
    simp [List.length_take]
    omega
  have h1 : (List.take p rpp ++ reSubMarker (List.drop p rpp)).take p = List.take p rpp := by
    have := List.take_left (List.take p rpp) (reSubMarker (List.drop p rpp))
    rw [hlen] at this
    exact this
  have h2 : (List.take p rpp ++ reSubMarker (List.drop p rpp)).drop p =
      reSubMarker (List.drop p rpp) := by
    have := List.drop_left (List.take p rpp) (reSubMarker (List.drop p rpp))
    rw [hlen] at this
    exact this
  simp only [spliceRpp, h, hsplit, h1, h2]

/-- Modelled from the spec (the wording of claim C1), for refutation by
comparison: remove every full *line* containing the marker keyword, then
insert the block at the offset of the first keyword occurrence in the
original text (within the line-stripped text), then normalize indentation
before the anchor. -/
def claimedSplice (rpp block : List Char) : List Char :=
  let cleaned := joinNl ((splitNl rpp).filter (fun ln => (findSubIdx msChars ln).isNone))
  let inserted :=
    match findSubIdx msChars rpp with
    | some p => cleaned.take p ++ block ++ cleaned.drop p
    | none => cleaned
  projbayNormalize inserted

/-- An original text whose marker line is indented, as REAPER writes it. -/
def rppX : List Char := "A\n  MARKER x\nB\n<PROJBAY z\n".data

/-- A serialized block to splice into `rppX`. -/
def blockX : List Char := "MARKER r\n".data

/-- Counterexample for C1: the code removes keyword-to-end-of-line spans (the
marker line's indentation survives and the saved offset still points at the
keyword), so the block lands before the line B; removing whole lines as the
claim states would shift the offset past B and produce a different
document. -/
theorem splice_differs_from_line_removal :
    spliceRpp rppX blockX = "A\nMARKER r\nB\n<PROJBAY z\n".data ∧
    claimedSplice rppX blockX = "A\nB\nMARKER r\n<PROJBAY z\n".data ∧
    spliceRpp rppX blockX ≠ claimedSplice rppX blockX := by decide

/-- Witness for the amended C1 at `rppX`, whose first keyword offset is 4. -/
theorem splice_at_original_offset_witness :
    findSubIdx msChars rppX = some 4 ∧
    spliceRpp rppX blockX =
      projbayNormalize (List.take 4 rppX ++ blockX ++ reSubMarker (List.drop 4 rppX)) :=
  ⟨by decide, splice_at_original_offset rppX blockX 4 (by decide)⟩

end ReaperProj
